import Mathlib

set_option maxRecDepth 100000
set_option maxHeartbeats 2000000

/-!
Verification development for the supplier-scraper core (`src/final.py`).

The embedding models the pure computational core of the pipeline:

* `extract_webpage_text` (final.py lines 34-54): bounded-retry page fetch,
  with the HTTP collaborator abstracted as a function from attempt index to
  response, and the attempt count / sleep log made explicit in the result.
* `rank_suppliers` (final.py lines 75-120): brace-span JSON extraction from
  the LLM reply, score cleaning (clamping, neutral default 3.0) and the
  weighted total.  The LLM call itself is external; the function here takes
  the LLM's reply text.  JSON parsing of the extracted substring is
  abstracted as a parameter returning the top-level object's fields.
* `format_deep_scrape_output` (final.py lines 123-185): the deterministic
  section formatter, embedded character-for-character over `List Char`.
* `deep_scrape_website` (final.py lines 188-210): the memoized deep scrape;
  `functools.lru_cache(maxsize=128)` is modelled as an explicit
  most-recently-used-first association list threaded through the call, with
  a boolean flag recording whether the underlying computation ran.

Python floats are idealized as exact rationals; `round(x, 1)` is modelled
as round-half-to-even at one decimal, which is Python's rounding mode.
-/

namespace SupplierScraper

/-- Characters of a string, the representation used throughout the embedding
(Python strings are sequences of characters). -/
def strL (s : String) : List Char := s.data

/-- Prefix test on character lists (helper for the Python substring test). -/
def isPrefixL : List Char → List Char → Bool
  | [], _ => true
  | _ :: _, [] => false
  | a :: as, b :: bs => a == b && isPrefixL as bs

/-- Python's substring test `needle in haystack`. -/
def containsL (n : List Char) : List Char → Bool
  | [] => n.isEmpty
  | b :: bs => isPrefixL n (b :: bs) || containsL n bs

/-- Python's `str.lower()` (the embedded strings are ASCII). -/
def lowerL (l : List Char) : List Char := l.map Char.toLower

/-- Whitespace recognized by Python's `str.strip()`. -/
def isWsChar (c : Char) : Bool :=
  c == ' ' || c == '\t' || c == '\n' || c == '\r' || c == '\x0b' || c == '\x0c'

/-- Python's `str.strip()`: drop whitespace from both ends. -/
def stripL (l : List Char) : List Char :=
  ((l.dropWhile isWsChar).reverse.dropWhile isWsChar).reverse

/-- Helper for `splitNL`: accumulate the current line (reversed) while
scanning. -/
def splitNLAux : List Char → List Char → List (List Char)
  | [], acc => [acc.reverse]
  | c :: rest, acc =>
    if c == '\n' then acc.reverse :: splitNLAux rest []
    else splitNLAux rest (c :: acc)

/-- Python's `result.split('\n')` (final.py line 127). -/
def splitNL (l : List Char) : List (List Char) := splitNLAux l []

/-- Python's `"\n".join(lines)` (final.py line 185). -/
def joinNL : List (List Char) → List Char
  | [] => []
  | [x] => x
  | x :: y :: t => x ++ '\n' :: joinNL (y :: t)

/-- Python's `line.split(':', 1)[1]`: everything after the first colon. -/
def afterColon (l : List Char) : List Char :=
  (l.dropWhile (fun c => !(c == ':'))).tail

/- ----------------------------------------------------------------------
Formatter: `format_deep_scrape_output`, final.py lines 123-185.
---------------------------------------------------------------------- -/

/-- The `sections` dict of final.py lines 129-137, in insertion order:
header keyword paired with display name. -/
def sectionsL : List (List Char × List Char) :=
  [ (strL "Phone Number", strL "Phone Numbers")
  , (strL "Email", strL "Emails")
  , (strL "Supplier Details", strL "Supplier Details")
  , (strL "Location", strL "Location")
  , (strL "Product Pricing", strL "Product Pricing")
  , (strL "ISO Certifications", strL "ISO Certifications")
  , (strL "Manufacturing Process Summary", strL "Manufacturing Process Summary") ]

/-- The display names, in the order `sections.values()` iterates them. -/
def displayNames : List (List Char) := sectionsL.map (fun p => p.2)

/-- Count of lines whose lowercase form contains "supplier details"
(final.py line 139); multiple-suppliers mode is active iff this exceeds 1. -/
def supplierDetailCount (lines : List (List Char)) : ℕ :=
  (lines.filter (fun ln => containsL (strL "supplier details") (lowerL ln))).length

/-- First section entry whose lowercased keyword occurs in the lowercased
line — the `for key, display_name in sections.items(): if key.lower() in
line.lower()` loop with `break` (final.py lines 153-154). -/
def findSec (line : List Char) : Option (List Char × List Char) :=
  sectionsL.find? (fun p => containsL (lowerL p.1) (lowerL line))

/-- Content extraction of final.py line 156: text after the first colon if
the line has one, otherwise the line with the first `len(key)` characters
removed; stripped either way. -/
def contentOf (key line : List Char) : List Char :=
  if containsL [':'] line then stripL (afterColon line)
  else stripL (line.drop key.length)

/-- Loop state of the formatter scan: `formatted_output`, `current_section`,
`supplier_index` and `supplier_data` (values in key order 1..index). -/
structure FmtSt where
  out : List (List Char)
  cs : Option (List Char)
  idx : ℕ
  blocks : List (List (List Char))

/-- Python's `formatted_output[-1] += s` (final.py line 168). -/
def appendLast : List (List Char) → List Char → List (List Char)
  | [], _ => []
  | [x], s => [x ++ s]
  | x :: y :: t, s => x :: appendLast (y :: t) s

/-- Python's `supplier_data[supplier_index].append(s)` (final.py line 166):
the highest index is the last block. -/
def appendLastBlock : List (List (List Char)) → List Char → List (List (List Char))
  | [], _ => []
  | [b], s => [b ++ [s]]
  | b :: c :: t, s => b :: appendLastBlock (c :: t) s

/-- The indexed supplier-block header
`f"**Supplier {supplier_index} Details**: {content}"` (final.py line 159). -/
def supplierHeader (j : ℕ) (content : List Char) : List Char :=
  strL "**Supplier " ++ (toString j).data ++ strL " Details**: " ++ content

/-- One iteration of the `for line in lines` loop (final.py lines 149-168). -/
def processLine (multi : Bool) (st : FmtSt) (raw : List Char) : FmtSt :=
  let line := stripL raw
  if line.isEmpty then st
  else
    match findSec line with
    | some (key, dn) =>
      let content := contentOf key line
      if containsL (strL "Supplier Details") dn && multi then
        { st with
          cs := some dn
          idx := st.idx + 1
          blocks := st.blocks ++ [[supplierHeader (st.idx + 1) content]] }
      else
        { st with
          cs := some dn
          out := st.out ++ [strL "**" ++ dn ++ strL "**: " ++ content] }
    | none =>
      match st.cs with
      | none => st
      | some cs =>
        if multi && (cs == strL "Supplier Details") then
          { st with blocks := appendLastBlock st.blocks (strL "  - " ++ line) }
        else
          { st with out := appendLast st.out (strL " " ++ line) }

/-- Per-section canned default message (final.py lines 176-183). -/
def defaultMsg (dn : List Char) : List Char :=
  if dn == strL "ISO Certifications" then strL "No ISO certifications mentioned."
  else if dn == strL "Manufacturing Process Summary" then
    strL "Please contact the supplier for details."
  else if dn == strL "Location" then strL "Not specified in the text."
  else strL "Not found in the text."

/-- The default line appended for a missing section. -/
def defaultLine (dn : List Char) : List Char :=
  strL "**" ++ dn ++ strL "**: " ++ defaultMsg dn

/-- One iteration of the defaults loop (final.py lines 174-183): append the
default line iff no existing output item contains the display name. -/
def addDefault (acc : List (List Char)) (dn : List Char) : List (List Char) :=
  if acc.any (fun item => containsL dn item) then acc else acc ++ [defaultLine dn]

/-- The scan of final.py lines 142-168: fold `processLine` over the lines,
starting from the marker line (in multiple-suppliers mode), no current
section, supplier index 0 and no supplier blocks. -/
def scanSt (multi : Bool) (lines : List (List Char)) : FmtSt :=
  lines.foldl (processLine multi)
    { out := if multi then [strL "Multiple Suppliers Detected on this Website"] else []
      cs := none
      idx := 0
      blocks := [] }

/-- The `formatted_output` list right before the defaults loop: the marker
(in multiple-suppliers mode), the scanned section lines, then the indexed
supplier blocks (final.py lines 139-172). -/
def preDefaultLines (l : List Char) : List (List Char) :=
  let lines := splitNL l
  let multi : Bool := decide (1 < supplierDetailCount lines)
  if multi then (scanSt multi lines).out ++ (scanSt multi lines).blocks.flatten
  else (scanSt multi lines).out

/-- A line that the scan routes to the "Supplier Details" section: its
stripped form's first matching section keyword is "Supplier Details".  In
multiple-suppliers mode these are exactly the lines that start an indexed
supplier block. -/
def isSDLine (ln : List Char) : Bool :=
  decide (findSec (stripL ln) =
    some (strL "Supplier Details", strL "Supplier Details"))

/-- Well-formedness of the supplier blocks accumulated by the scan,
starting at 0-based position `k`: the block at 0-based position `i` begins
with the header line `**Supplier (i+1) Details**: ...`, so the blocks are
indexed consecutively from `k+1` in order of appearance. -/
def BlocksOK : ℕ → List (List (List Char)) → Prop
  | _, [] => True
  | k, b :: t =>
    (∃ content rest, b = supplierHeader (k + 1) content :: rest) ∧ BlocksOK (k + 1) t

/-- Invariant of the multiple-suppliers scan: the marker stays the first
output line, a current section other than "Supplier Details" guarantees at
least two output lines (so continuations never touch the marker), the
supplier index counts the blocks, and the blocks are consecutively indexed
header-first blocks. -/
def ScanInv (st : FmtSt) : Prop :=
  st.out.head? = some (strL "Multiple Suppliers Detected on this Website") ∧
  (∀ dn, st.cs = some dn → dn = strL "Supplier Details" ∨ 2 ≤ st.out.length) ∧
  st.blocks.length = st.idx ∧
  BlocksOK 0 st.blocks

/-- The final `formatted_output` list, defaults included. -/
def formatLines (l : List Char) : List (List Char) :=
  displayNames.foldl addDefault (preDefaultLines l)

/-- Body of the formatter after the "Error" early return (final.py
lines 127-185). -/
def formatCore (l : List Char) : List Char :=
  if (formatLines l).isEmpty then strL "No structured data extracted."
  else joinNL (formatLines l)

/-- The `"Error" in result` early-return test (final.py line 124). -/
def hasError (result : String) : Bool := containsL (strL "Error") result.data

/-- `format_deep_scrape_output` (final.py lines 123-185). -/
def format_deep_scrape_output (result : String) : String :=
  if hasError result then result else ⟨formatCore result.data⟩

/- ----------------------------------------------------------------------
Ranking: `rank_suppliers`, final.py lines 75-120.
---------------------------------------------------------------------- -/

/-- JSON values as produced by parsing the LLM's ranking reply.  Python's
`json.loads` maps JSON booleans to `bool`, which `isinstance(·, (int,
float))` accepts (bool is a subtype of int), so booleans count as numeric
with values 1/0. -/
inductive Json where
  | num (q : ℚ)
  | bool (b : Bool)
  | str (s : String)
  | arr (elts : List Json)
  | obj (fields : List (String × Json))
  | null

/-- Numeric value of a JSON score in the sense of final.py line 107's
`isinstance(scores[criterion], (int, float))` followed by `float(...)`. -/
def jnumVal : Json → Option ℚ
  | .num q => some q
  | .bool b => some (if b then 1 else 0)
  | _ => none

/-- `min(5, max(0, float(scores[criterion])))` (final.py line 108). -/
def clampQ (q : ℚ) : ℚ := min 5 (max 0 q)

/-- The `criteria_weights` dict (final.py lines 76-84), in insertion order. -/
def criteria_weights : List (String × ℚ) :=
  [ ("product_quality", 0.25)
  , ("certifications", 0.15)
  , ("customer_reviews", 0.20)
  , ("price_competitiveness", 0.15)
  , ("manufacturing_capabilities", 0.10)
  , ("reliability", 0.10)
  , ("innovation", 0.05) ]

/-- The 7 criterion names. -/
def criteriaNames : List String := criteria_weights.map (fun p => p.1)

/-- Cleaned score of one criterion (final.py lines 106-110): clamp the
supplied value to [0,5] when present and numeric, otherwise the neutral 3. -/
def cleanedScore (scores : List (String × Json)) (c : String) : ℚ :=
  match (List.lookup c scores).bind jnumVal with
  | some q => clampQ q
  | none => 3

/-- Round-half-to-even to an integer, Python's `round` mode (idealized over
exact rationals). -/
def rhe (x : ℚ) : ℤ :=
  if x - ⌊x⌋ < 1/2 then ⌊x⌋
  else if 1/2 < x - ⌊x⌋ then ⌊x⌋ + 1
  else if Even ⌊x⌋ then ⌊x⌋ else ⌊x⌋ + 1

/-- Python's `round(x, 1)`. -/
def round1 (x : ℚ) : ℚ := ((rhe (x * 10) : ℤ) : ℚ) / 10

/-- `sum(cleaned_scores[criterion] * weight for criterion, weight in
criteria_weights.items())` (final.py line 111). -/
def weightedTotal (scores : List (String × Json)) : ℚ :=
  (criteria_weights.map (fun p => cleanedScore scores p.1 * p.2)).sum

/-- The cleaned per-supplier score map (final.py lines 105-112): the 7
criteria in fixed order, then the rounded weighted total under "total". -/
def cleanEntry (scores : List (String × Json)) : List (String × ℚ) :=
  criteria_weights.map (fun p => (p.1, cleanedScore scores p.1))
    ++ [("total", round1 (weightedTotal scores))]

/-- The `cleaned_data` construction (final.py lines 102-113): suppliers
whose value is a mapping are cleaned, every other entry is skipped. -/
def cleanRanking (entries : List (String × Json)) : List (String × List (String × ℚ)) :=
  entries.filterMap (fun p =>
    match p.2 with
    | Json.obj scores => some (p.1, cleanEntry scores)
    | _ => none)

/-- Opening brace character. -/
def lbrace : Char := Char.ofNat 123

/-- Closing brace character. -/
def rbrace : Char := Char.ofNat 125

/-- Index of the first occurrence of a character. -/
def firstIdx (c : Char) : List Char → Option ℕ
  | [] => none
  | a :: as => if a == c then some 0 else (firstIdx c as).map (· + 1)

/-- Index of the last occurrence of a character. -/
def lastIdx (c : Char) (l : List Char) : Option ℕ :=
  (firstIdx c l.reverse).map (fun k => l.length - 1 - k)

/-- The greedy brace-span extraction `re.search(r'\x7b.*\x7d', response,
re.DOTALL)` (final.py line 99): the span from the first opening brace to the
last closing brace, when the former precedes the latter. -/
def extractJsonSpan (s : String) : Option String :=
  match firstIdx lbrace s.data, lastIdx rbrace s.data with
  | some i, some j =>
    if i < j then some ⟨(s.data.drop i).take (j - i + 1)⟩ else none
  | _, _ => none

/-- `rank_suppliers` after the LLM reply is in hand (final.py lines
98-120).  `parse` abstracts `json.loads` restricted to the top-level-object
case (the extracted span starts with an opening brace, so a successful
parse is an object); `none` is a `JSONDecodeError`.  The second component
records the error messages passed to `st.error`. -/
def rank_suppliers (parse : String → Option (List (String × Json)))
    (response : String) :
    Option (List (String × List (String × ℚ))) × List String :=
  match extractJsonSpan response with
  | some sub =>
    match parse sub with
    | some entries => (some (cleanRanking entries), [])
    | none => (none, ["Unable to parse JSON response from OpenAI for ranking."])
  | none => (none, ["No valid JSON found in ranking response."])

/- ----------------------------------------------------------------------
Retriever: `extract_webpage_text`, final.py lines 34-54.
---------------------------------------------------------------------- -/

/-- Outcome of one GET request: an HTTP response (code plus the visible
text of the body, `soup.get_text()`) or a transport exception. -/
inductive HttpResp where
  | response (code : ℕ) (body : String)
  | netErr

/-- The retry loop of final.py lines 38-54, returning the result, the
number of GET attempts issued, and the log of sleep durations in seconds.
The first argument maps the attempt index to that attempt's outcome. -/
def ewtAux (get : ℕ → HttpResp) : ℕ → ℕ → Option String × ℕ × List ℕ
  | _, 0 => (none, 0, [])
  | i, n + 1 =>
    match get i with
    | .response code body =>
      if code = 200 then (some body, 1, [])
      else if code = 403 ∨ code = 429 then
        let r := ewtAux get (i + 1) n
        (r.1, r.2.1 + 1, 5 :: r.2.2)
      else (none, 1, [])
    | .netErr =>
      let r := ewtAux get (i + 1) n
      (r.1, r.2.1 + 1, 3 :: r.2.2)

/-- `extract_webpage_text(url, retries)` (final.py lines 34-54) with the
HTTP collaborator abstracted. -/
def extract_webpage_text (get : ℕ → HttpResp) (retries : ℕ) :
    Option String × ℕ × List ℕ :=
  ewtAux get 0 retries

/- ----------------------------------------------------------------------
Cache and deep scrape: `deep_scrape_website`, final.py lines 188-210.
---------------------------------------------------------------------- -/

/-- The `lru_cache(maxsize=128)` state: association list from URL to the
`(formatted_result, summary)` pair, most recently used first. -/
abbrev ExtractionCache := List (String × (String × Option String))

/-- Cache lookup by exact URL string. -/
def cacheLookup (c : ExtractionCache) (u : String) : Option (String × Option String) :=
  List.lookup u c

/-- LRU cache hit: the entry moves to the most-recently-used position. -/
def lruTouch (c : ExtractionCache) (u : String) (v : String × Option String) :
    ExtractionCache :=
  (u, v) :: c.filter (fun p => !(p.1 == u))

/-- LRU cache miss: insert at the most-recently-used position, evicting the
least recently used entry beyond capacity 128.  (`(u,v) :: c.take 127` is
`((u,v) :: c).take 128`.) -/
def lruInsert (c : ExtractionCache) (u : String) (v : String × Option String) :
    ExtractionCache :=
  (u, v) :: c.take 127

/-- Python's `data_values[:5000]` (final.py line 192). -/
def take5000 (s : String) : String := ⟨s.data.take 5000⟩

/-- The structured-extraction prompt (final.py lines 193-204). -/
def extraction_prompt (t : String) : String :=
  "Extract and analyze details from this text: " ++ t ++
  ". If multiple suppliers are mentioned, list each separately with their details. " ++
  "Provide the output in a structured format with the following sections:\n" ++
  "- Phone Number: List any phone numbers found.\n" ++
  "- Email: List any email addresses found.\n" ++
  "- Supplier Details: Include company name, address, or contact person if mentioned; if multiple suppliers, list each separately.\n" ++
  "- Location: Specify the specific location of the supplier if available; if not, state 'Not specified in the text.'\n" ++
  "- Product Pricing: List prices of products mentioned.\n" ++
  "- ISO Certifications: Specify any ISO certifications if present; if none, state 'No ISO certifications mentioned.'\n" ++
  "- Manufacturing Process Summary: Summarize specific manufacturing process details if available; if not, state 'PLEASE CONTACT THE SUPPLIER FOR DETAILS'."

/-- The summary prompt (final.py line 207). -/
def summary_prompt (t : String) : String :=
  "Summarize the following text in 200 words or less: " ++ t

/-- The uncached body of `deep_scrape_website` (final.py lines 190-210).
`fetch` abstracts `extract_webpage_text` on the URL (`none` for a failed
fetch); `chat` abstracts `chat_with_openai(user_input, context)`.  Python's
`if data_values:` also treats an empty extracted text as a failure. -/
def deep_scrape_compute (fetch : String → Option String)
    (chat : String → String → String) (url : String) : String × Option String :=
  match fetch url with
  | some data_values =>
    if data_values.isEmpty then
      ("No data extracted. The website might be blocking requests.", none)
    else
      let truncated := take5000 data_values
      let result := chat (extraction_prompt truncated) truncated
      let formatted := format_deep_scrape_output result
      let summary := chat (summary_prompt truncated) truncated
      (formatted, some summary)
  | none => ("No data extracted. The website might be blocking requests.", none)

/-- `deep_scrape_website` with the `lru_cache` made explicit (final.py
lines 188-210): returns the `(formatted_result, summary)` pair, the updated
cache, and whether the underlying computation (fetch plus LLM calls) was
invoked — `false` on a cache hit. -/
def deep_scrape_website (fetch : String → Option String)
    (chat : String → String → String) (c : ExtractionCache) (url : String) :
    (String × Option String) × ExtractionCache × Bool :=
  match cacheLookup c url with
  | some v => (v, lruTouch c url v, false)
  | none =>
    let v := deep_scrape_compute fetch chat url
    (v, lruInsert c url v, true)

/- ----------------------------------------------------------------------
Helper lemmas.
---------------------------------------------------------------------- -/

/-- On inputs containing "Error" the formatter is the identity. -/
theorem format_of_hasError (x : String) (h : hasError x = true) :
    format_deep_scrape_output x = x := by
  simp [format_deep_scrape_output, h]

/-- The empty needle is a substring of everything. -/
theorem containsL_nil (h : List Char) : containsL [] h = true := by
  cases h <;> simp [containsL, isPrefixL]

/-- A list is a prefix of itself. -/
theorem isPrefixL_refl (l : List Char) : isPrefixL l l = true := by
  induction l with
  | nil => rfl
  | cons a as ih => simp [isPrefixL, ih]

/-- Prefixes survive extension on the right. -/
theorem isPrefixL_append (d a b : List Char) (h : isPrefixL d a = true) :
    isPrefixL d (a ++ b) = true := by
  induction d generalizing a with
  | nil => simp [isPrefixL]
  | cons x xs ih =>
    cases a with
    | nil => simp [isPrefixL] at h
    | cons y ys =>
      simp only [isPrefixL, Bool.and_eq_true] at h
      simp only [List.cons_append, isPrefixL, Bool.and_eq_true]
      exact ⟨h.1, ih ys h.2⟩

/-- Every list contains itself. -/
theorem containsL_self (l : List Char) : containsL l l = true := by
  cases l with
  | nil => rfl
  | cons a as => simp [containsL, isPrefixL_refl]

/-- Substring containment survives extension on the right. -/
theorem containsL_append_left (d a b : List Char) (h : containsL d a = true) :
    containsL d (a ++ b) = true := by
  induction a with
  | nil =>
    simp only [containsL] at h
    rw [List.isEmpty_iff] at h
    subst h
    exact containsL_nil b
  | cons x xs ih =>
    simp only [containsL, Bool.or_eq_true] at h
    rcases h with h | h
    · simp only [List.cons_append, containsL, Bool.or_eq_true]
      exact Or.inl (isPrefixL_append d (x :: xs) b h)
    · simp only [List.cons_append, containsL, Bool.or_eq_true]
      exact Or.inr (ih h)

/-- Substring containment survives extension on the left. -/
theorem containsL_append_right (d a b : List Char) (h : containsL d b = true) :
    containsL d (a ++ b) = true := by
  induction a with
  | nil => exact h
  | cons x xs ih =>
    simp only [List.cons_append, containsL, Bool.or_eq_true]
    exact Or.inr ih

/-- Substring containment survives a cons on the left. -/
theorem containsL_cons (d t : List Char) (c : Char) (h : containsL d t = true) :
    containsL d (c :: t) = true := by
  simp only [containsL, Bool.or_eq_true]
  exact Or.inr h

/-- The default line for a section contains that section's display name. -/
theorem containsL_defaultLine (dn : List Char) : containsL dn (defaultLine dn) = true := by
  unfold defaultLine
  exact containsL_append_left dn _ _
    (containsL_append_left dn _ _
      (containsL_append_right dn (strL "**") dn (containsL_self dn)))

/-- After `addDefault acc dn`, some item contains `dn`. -/
theorem any_addDefault_self (acc : List (List Char)) (dn : List Char) :
    (addDefault acc dn).any (fun item => containsL dn item) = true := by
  unfold addDefault
  split
  · assumption
  · rw [List.any_append]
    simp [containsL_defaultLine]

/-- `addDefault` preserves the presence of any display name. -/
theorem any_addDefault_mono (acc : List (List Char)) (dn e : List Char)
    (h : acc.any (fun item => containsL e item) = true) :
    (addDefault acc dn).any (fun item => containsL e item) = true := by
  unfold addDefault
  split
  · exact h
  · rw [List.any_append]
    simp [h]

/-- The defaults fold preserves the presence of any display name. -/
theorem any_foldl_addDefault_mono (l : List (List Char)) (acc : List (List Char))
    (e : List Char) (h : acc.any (fun item => containsL e item) = true) :
    (l.foldl addDefault acc).any (fun item => containsL e item) = true := by
  induction l generalizing acc with
  | nil => exact h
  | cons d t ih => exact ih (addDefault acc d) (any_addDefault_mono acc d e h)

/-- After the defaults fold, every display name of the fold list is present. -/
theorem any_foldl_addDefault_mem (l : List (List Char)) (acc : List (List Char))
    (dn : List Char) (h : dn ∈ l) :
    ((l.foldl addDefault acc).any (fun item => containsL dn item)) = true := by
  induction l generalizing acc with
  | nil => cases h
  | cons a t ih =>
    rcases List.mem_cons.mp h with rfl | h'
    · exact any_foldl_addDefault_mono t (addDefault acc dn) dn (any_addDefault_self acc dn)
    · exact ih (addDefault acc a) h'

/-- Membership plus containment transfers to the newline join. -/
theorem containsL_joinNL (d x : List Char) (l : List (List Char))
    (h : containsL d x = true) : x ∈ l → containsL d (joinNL l) = true := by
  induction l with
  | nil => intro hx; cases hx
  | cons a t ih =>
    intro hx
    cases t with
    | nil =>
      rcases List.mem_cons.mp hx with rfl | h'
      · exact h
      · cases h'
    | cons b t2 =>
      show containsL d (a ++ '\n' :: joinNL (b :: t2)) = true
      rcases List.mem_cons.mp hx with rfl | h'
      · exact containsL_append_left d x _ h
      · exact containsL_append_right d a _ (containsL_cons d _ '\n' (ih h'))

/- ----------------------------------------------------------------------
Claim theorems: the formatter.
---------------------------------------------------------------------- -/

/-- C10: every input string containing the substring "Error"
(case-sensitive) is returned unchanged by `format_deep_scrape_output`: no
section parsing, no multi-supplier detection, no default padding. -/
theorem format_error_passthrough (x : String) (h : hasError x = true) :
    format_deep_scrape_output x = x :=
  format_of_hasError x h

/-- Witness for C10 at the concrete input "Error: 404". -/
theorem format_error_passthrough_witness :
    format_deep_scrape_output "Error: 404" = "Error: 404" :=
  format_error_passthrough "Error: 404" (by decide)

/-- C2 counterexample: `format_deep_scrape_output` is not idempotent.  On
the two-supplier input below, the first pass emits the multi-supplier
marker and two indexed supplier blocks, but on a second pass neither the
marker line nor the indexed block lines match any section header, so they
are dropped. -/
theorem format_idempotent_cex :
    format_deep_scrape_output
        (format_deep_scrape_output "Supplier Details: A\nSupplier Details: B") ≠
      format_deep_scrape_output "Supplier Details: A\nSupplier Details: B" := by
  decide

/-- C2 amended: idempotence does not hold for every input.  It holds on
every input containing "Error" (where the formatter is the identity), and
on the counterexample input a second application reaches a fixed point
(applying the formatter three times equals applying it twice). -/
theorem format_idempotent_amended :
    (∀ x : String, hasError x = true →
      format_deep_scrape_output (format_deep_scrape_output x) =
        format_deep_scrape_output x) ∧
    format_deep_scrape_output (format_deep_scrape_output (format_deep_scrape_output
        "Supplier Details: A\nSupplier Details: B")) =
      format_deep_scrape_output (format_deep_scrape_output
        "Supplier Details: A\nSupplier Details: B") := by
  constructor
  · intro x h
    rw [format_of_hasError x h, format_of_hasError x h]
  · decide

/-- Witness for C2 amended at a concrete "Error" input. -/
theorem format_idempotent_amended_witness :
    format_deep_scrape_output (format_deep_scrape_output "Network Error occurred") =
      format_deep_scrape_output "Network Error occurred" :=
  format_idempotent_amended.1 "Network Error occurred" (by decide)

/-- C4 counterexample, two concrete refutations of "the output always
contains exactly one entry per canonical section".  First, the input
"Error" is returned unchanged, so nothing is appended and the output has
no "Phone Numbers" entry at all.  Second, on the "Error"-free input
"Phone Number: our Location office" the display name "Location" occurs
inside the Phone Numbers content, which satisfies the defaults loop's
substring presence test and suppresses the Location default, so the output
contains no `**Location**` entry line — only substring presence of each
display name is guaranteed, not an entry line per section. -/
theorem format_defaults_cex :
    (format_deep_scrape_output "Error" = "Error" ∧
     containsL (strL "Phone Numbers") (format_deep_scrape_output "Error").data = false) ∧
    containsL (strL "**Location**")
      (format_deep_scrape_output "Phone Number: our Location office").data = false := by
  refine ⟨⟨by decide, by decide⟩, by decide⟩

/-- C4 amended: for every input string not containing "Error", each of the
7 canonical display names occurs as a substring of the formatter's output:
the defaults loop appends a section's default line exactly when its
display name occurs as a substring of no existing output item, so what the
code guarantees is substring presence of every display name.  The stronger
"exactly one entry line per canonical section" fails: inputs containing
"Error" are returned unchanged with no padding, a display name embedded in
another section's content suppresses that section's default line, and a
header occurring several times yields several entries. -/
theorem format_defaults_amended (x : String) (h : hasError x = false)
    (dn : List Char) (hdn : dn ∈ displayNames) :
    containsL dn (format_deep_scrape_output x).data = true := by
  have hout : (formatLines x.data).any (fun item => containsL dn item) = true :=
    any_foldl_addDefault_mem displayNames (preDefaultLines x.data) dn hdn
  obtain ⟨item, hmem, hitem⟩ := List.any_eq_true.mp hout
  have hne : (formatLines x.data).isEmpty = false := by
    cases h' : formatLines x.data with
    | nil => rw [h'] at hmem; cases hmem
    | cons a t => simp [h']
  have h1 : format_deep_scrape_output x = ⟨formatCore x.data⟩ := by
    simp [format_deep_scrape_output, h]
  rw [h1]
  show containsL dn (formatCore x.data) = true
  unfold formatCore
  rw [hne]
  simp only [Bool.false_eq_true, if_false]
  exact containsL_joinNL dn item (formatLines x.data) hitem hmem

/-- Witness for C4 amended: the "Emails" section is present in the output
for the sectionless input "hello". -/
theorem format_defaults_amended_witness :
    containsL (strL "Emails") (format_deep_scrape_output "hello").data = true :=
  format_defaults_amended "hello" (by decide) (strL "Emails") (by decide)

/-- C8 counterexample: an input with exactly 3 lines whose lowercase form
contains "supplier details" (and no "Error") for which the formatter emits
only 2 indexed supplier blocks: the first such line also contains the
keyword "email", which precedes "Supplier Details" in the section table, so
the scan routes it to the Emails section instead of starting a block. -/
theorem format_three_suppliers_cex :
    supplierDetailCount (splitNL (strL
        "email supplier details: a\nsupplier details: b\nsupplier details: c")) = 3 ∧
    hasError "email supplier details: a\nsupplier details: b\nsupplier details: c" = false ∧
    containsL (strL "**Supplier 3 Details**")
      (format_deep_scrape_output
        "email supplier details: a\nsupplier details: b\nsupplier details: c").data = false := by
  refine ⟨by decide, by decide, by decide⟩

/-- A head survives appending on the right. -/
theorem head?_append_left {α : Type} (l l' : List α) (a : α)
    (h : l.head? = some a) : (l ++ l').head? = some a := by
  cases l with
  | nil => simp at h
  | cons x t => simpa using h

/-- `appendLast` preserves the length. -/
theorem appendLast_length (l : List (List Char)) (s : List Char) :
    (appendLast l s).length = l.length := by
  induction l with
  | nil => rfl
  | cons x t ih =>
    cases t with
    | nil => rfl
    | cons y t2 =>
      show (x :: appendLast (y :: t2) s).length = (x :: y :: t2).length
      simp only [List.length_cons, ih]

/-- `appendLast` preserves the head of a list with at least two elements. -/
theorem appendLast_head_eq (l : List (List Char)) (s : List Char)
    (h : 2 ≤ l.length) : (appendLast l s).head? = l.head? := by
  cases l with
  | nil => simp at h
  | cons x t =>
    cases t with
    | nil => simp at h
    | cons y t2 => rfl

/-- `appendLastBlock` preserves the number of blocks. -/
theorem appendLastBlock_length (bs : List (List (List Char))) (s : List Char) :
    (appendLastBlock bs s).length = bs.length := by
  induction bs with
  | nil => rfl
  | cons b t ih =>
    cases t with
    | nil => rfl
    | cons c t2 =>
      show (b :: appendLastBlock (c :: t2) s).length = (b :: c :: t2).length
      simp only [List.length_cons, ih]

/-- Appending a continuation line to the last block keeps every block
header-first and consecutively indexed. -/
theorem BlocksOK_appendLastBlock (bs : List (List (List Char))) (s : List Char) :
    ∀ k, BlocksOK k bs → BlocksOK k (appendLastBlock bs s) := by
  induction bs with
  | nil => intro k h; exact h
  | cons b t ih =>
    intro k h
    cases t with
    | nil =>
      obtain ⟨⟨content, rest, hb⟩, -⟩ := h
      refine ⟨⟨content, rest ++ [s], ?_⟩, trivial⟩
      show b ++ [s] = supplierHeader (k + 1) content :: (rest ++ [s])
      rw [hb]
      rfl
    | cons c t2 =>
      obtain ⟨hb, ht⟩ := h
      exact ⟨hb, ih (k + 1) ht⟩

/-- Appending a fresh block with the next index keeps the block list
header-first and consecutively indexed. -/
theorem BlocksOK_append_new (bs : List (List (List Char))) (content : List Char) :
    ∀ k, BlocksOK k bs →
      BlocksOK k (bs ++ [[supplierHeader (k + bs.length + 1) content]]) := by
  induction bs with
  | nil =>
    intro k _
    exact ⟨⟨content, [], rfl⟩, trivial⟩
  | cons b t ih =>
    intro k h
    obtain ⟨hb, ht⟩ := h
    refine ⟨hb, ?_⟩
    have harith : k + (b :: t).length + 1 = (k + 1) + t.length + 1 := by
      simp only [List.length_cons]
      omega
    rw [harith]
    exact ih (k + 1) ht

/-- The empty line matches no section keyword. -/
theorem findSec_nil : findSec ([] : List Char) = none := by decide

/-- Among the section entries, exactly the "Supplier Details" entry has a
display name containing "Supplier Details". -/
theorem SD_unique :
    ∀ p ∈ sectionsL, (containsL (strL "Supplier Details") p.2 = true ↔
      p = (strL "Supplier Details", strL "Supplier Details")) := by
  decide

/-- Lowercasing the "Supplier Details" keyword. -/
theorem lowerL_SDkey : lowerL (strL "Supplier Details") = strL "supplier details" := by
  decide

/-- Stripping removes a prefix and a suffix: every list is its stripped
core surrounded by (whitespace) pieces. -/
theorem stripL_decomp (l : List Char) : ∃ a b, l = a ++ stripL l ++ b := by
  refine ⟨l.takeWhile isWsChar,
    ((l.dropWhile isWsChar).reverse.takeWhile isWsChar).reverse, ?_⟩
  have h2 : l.dropWhile isWsChar =
      stripL l ++ ((l.dropWhile isWsChar).reverse.takeWhile isWsChar).reverse := by
    have h3 : (l.dropWhile isWsChar).reverse =
        (l.dropWhile isWsChar).reverse.takeWhile isWsChar ++
          (l.dropWhile isWsChar).reverse.dropWhile isWsChar :=
      (List.takeWhile_append_dropWhile isWsChar _).symm
    calc l.dropWhile isWsChar
        = (l.dropWhile isWsChar).reverse.reverse := (List.reverse_reverse _).symm
      _ = ((l.dropWhile isWsChar).reverse.takeWhile isWsChar ++
            (l.dropWhile isWsChar).reverse.dropWhile isWsChar).reverse := by
          rw [← h3]
      _ = ((l.dropWhile isWsChar).reverse.dropWhile isWsChar).reverse ++
            ((l.dropWhile isWsChar).reverse.takeWhile isWsChar).reverse := by
          rw [List.reverse_append]
      _ = stripL l ++ ((l.dropWhile isWsChar).reverse.takeWhile isWsChar).reverse := rfl
  have hmain : l = l.takeWhile isWsChar ++ (stripL l ++
      ((l.dropWhile isWsChar).reverse.takeWhile isWsChar).reverse) := by
    conv_lhs => rw [← List.takeWhile_append_dropWhile isWsChar l, h2]
  rw [List.append_assoc]
  exact hmain

/-- A substring of the lowercased stripped line is a substring of the
lowercased line. -/
theorem containsL_lowerL_of_strip (n ln : List Char)
    (h : containsL n (lowerL (stripL ln)) = true) :
    containsL n (lowerL ln) = true := by
  obtain ⟨a, b, hd⟩ := stripL_decomp ln
  rw [hd]
  unfold lowerL
  rw [List.map_append, List.map_append]
  exact containsL_append_left _ _ _ (containsL_append_right _ _ _ h)

/-- Every line routed to "Supplier Details" is counted by the
multiple-suppliers detection: its lowercase form contains
"supplier details". -/
theorem sdCount_of_isSDLine (ln : List Char) (h : isSDLine ln = true) :
    containsL (strL "supplier details") (lowerL ln) = true := by
  have hf : findSec (stripL ln) =
      some (strL "Supplier Details", strL "Supplier Details") := by
    simpa [isSDLine] using h
  unfold findSec at hf
  have hp := List.find?_some hf
  simp only at hp
  rw [lowerL_SDkey] at hp
  exact containsL_lowerL_of_strip _ _ hp

/-- Counting with pointwise equal predicates gives equal counts. -/
theorem countP_congr_mem {α : Type} (l : List α) (p q : α → Bool)
    (h : ∀ a ∈ l, p a = q a) : l.countP p = l.countP q := by
  induction l with
  | nil => rfl
  | cons a t ih =>
    rw [List.countP_cons, List.countP_cons, h a (List.mem_cons_self a t),
      ih (fun b hb => h b (List.mem_cons_of_mem a hb))]

/-- In multiple-suppliers mode, one scan step increments the supplier
index exactly on lines routed to "Supplier Details". -/
theorem processLine_true_idx (st : FmtSt) (ln : List Char) :
    (processLine true st ln).idx = st.idx + (if isSDLine ln then 1 else 0) := by
  by_cases he : (stripL ln).isEmpty = true
  · have hnil : stripL ln = [] := by simpa [List.isEmpty_iff] using he
    have hsd : isSDLine ln = false := by simp [isSDLine, hnil, findSec_nil]
    simp [processLine, he, hsd]
  · cases hf : findSec (stripL ln) with
    | none =>
      have hsd : isSDLine ln = false := by simp [isSDLine, hf]
      cases hcsv : st.cs with
      | none => simp [processLine, he, hf, hcsv, hsd]
      | some dn0 =>
        by_cases hd : (dn0 == strL "Supplier Details") = true
        · simp [processLine, he, hf, hcsv, hd, hsd]
        · simp [processLine, he, hf, hcsv, hd, hsd]
    | some p =>
      obtain ⟨k, dn⟩ := p
      have hmem : (k, dn) ∈ sectionsL := List.mem_of_find?_eq_some hf
      by_cases hsdc : containsL (strL "Supplier Details") dn = true
      · have hpair := (SD_unique _ hmem).mp hsdc
        have hsd : isSDLine ln = true := by simp [isSDLine, hf, hpair]
        simp [processLine, he, hf, hsdc, hsd]
      · have hne : (k, dn) ≠ (strL "Supplier Details", strL "Supplier Details") := by
          intro hq
          exact hsdc ((SD_unique _ hmem).mpr hq)
        have hsd : isSDLine ln = false := by
          simp [isSDLine, hf, hne]
        simp [processLine, he, hf, hsdc, hsd]

/-- In multiple-suppliers mode, one scan step preserves the scan
invariant. -/
theorem processLine_true_inv (st : FmtSt) (ln : List Char) (h : ScanInv st) :
    ScanInv (processLine true st ln) := by
  obtain ⟨hhead, hcs, hlen, hblocks⟩ := h
  by_cases he : (stripL ln).isEmpty = true
  · have heq : processLine true st ln = st := by simp [processLine, he]
    rw [heq]
    exact ⟨hhead, hcs, hlen, hblocks⟩
  · cases hf : findSec (stripL ln) with
    | some p =>
      obtain ⟨k, dn⟩ := p
      have hmem : (k, dn) ∈ sectionsL := List.mem_of_find?_eq_some hf
      by_cases hsdc : containsL (strL "Supplier Details") dn = true
      · have hpair := (SD_unique _ hmem).mp hsdc
        have hdn : dn = strL "Supplier Details" := congrArg Prod.snd hpair
        have heq : processLine true st ln =
            { st with
              cs := some dn
              idx := st.idx + 1
              blocks := st.blocks ++
                [[supplierHeader (st.idx + 1) (contentOf k (stripL ln))]] } := by
          simp [processLine, he, hf, hsdc]
        rw [heq]
        refine ⟨hhead, ?_, ?_, ?_⟩
        · intro dn' h'
          simp only [Option.some.injEq] at h'
          exact Or.inl (h' ▸ hdn)
        · simp [List.length_append, hlen]
        · have hb := BlocksOK_append_new st.blocks (contentOf k (stripL ln)) 0 hblocks
          have harith : (0 : ℕ) + st.blocks.length + 1 = st.idx + 1 := by omega
          rw [harith] at hb
          exact hb
      · have heq : processLine true st ln =
            { st with
              cs := some dn
              out := st.out ++
                [strL "**" ++ dn ++ strL "**: " ++ contentOf k (stripL ln)] } := by
          simp [processLine, he, hf, hsdc]
        rw [heq]
        have hne : st.out ≠ [] := by
          intro hnil
          rw [hnil] at hhead
          simp at hhead
        refine ⟨head?_append_left _ _ _ hhead, ?_, hlen, hblocks⟩
        intro dn' h'
        right
        have h1 : 0 < st.out.length := List.length_pos.mpr hne
        simp only [List.length_append, List.length_cons, List.length_nil]
        omega
    | none =>
      cases hcsv : st.cs with
      | none =>
        have heq : processLine true st ln = st := by simp [processLine, he, hf, hcsv]
        rw [heq]
        exact ⟨hhead, hcs, hlen, hblocks⟩
      | some dn0 =>
        by_cases hd : (dn0 == strL "Supplier Details") = true
        · have heq : processLine true st ln =
              { st with
                blocks := appendLastBlock st.blocks (strL "  - " ++ stripL ln) } := by
            simp [processLine, he, hf, hcsv, hd]
          rw [heq]
          refine ⟨hhead, hcs, ?_, BlocksOK_appendLastBlock _ _ 0 hblocks⟩
          show (appendLastBlock st.blocks _).length = st.idx
          rw [appendLastBlock_length]
          exact hlen
        · have hge : 2 ≤ st.out.length := by
            rcases hcs dn0 hcsv with heq0 | hge
            · rw [heq0] at hd
              simp at hd
            · exact hge
          have heq : processLine true st ln =
              { st with out := appendLast st.out (strL " " ++ stripL ln) } := by
            simp [processLine, he, hf, hcsv, hd]
          rw [heq]
          refine ⟨?_, ?_, hlen, hblocks⟩
          · show (appendLast st.out _).head? = _
            rw [appendLast_head_eq st.out _ hge]
            exact hhead
          · intro dn' h'
            right
            show 2 ≤ (appendLast st.out _).length
            rw [appendLast_length]
            exact hge

/-- The multiple-suppliers scan establishes the scan invariant. -/
theorem scanSt_true_inv (lines : List (List Char)) : ScanInv (scanSt true lines) := by
  have hstep : ∀ (l : List (List Char)) (st : FmtSt), ScanInv st →
      ScanInv (l.foldl (processLine true) st) := by
    intro l
    induction l with
    | nil => intro st h; exact h
    | cons ln t ih => intro st h; exact ih _ (processLine_true_inv st ln h)
  apply hstep
  refine ⟨rfl, ?_, rfl, trivial⟩
  intro dn h
  cases h

/-- The supplier index after the multiple-suppliers scan equals the number
of lines routed to "Supplier Details". -/
theorem scanSt_true_idx (lines : List (List Char)) :
    (scanSt true lines).idx = lines.countP isSDLine := by
  have hstep : ∀ (l : List (List Char)) (st : FmtSt),
      (l.foldl (processLine true) st).idx = st.idx + l.countP isSDLine := by
    intro l
    induction l with
    | nil => intro st; simp
    | cons ln t ih =>
      intro st
      show (t.foldl (processLine true) (processLine true st ln)).idx = _
      rw [ih, processLine_true_idx, List.countP_cons]
      cases hb : isSDLine ln <;> simp [hb] <;> omega
  show (lines.foldl (processLine true) _).idx = _
  rw [hstep]
  simp

/-- The defaults loop only appends lines. -/
theorem foldl_addDefault_append (l : List (List Char)) (acc : List (List Char)) :
    ∃ suf, l.foldl addDefault acc = acc ++ suf := by
  induction l generalizing acc with
  | nil => exact ⟨[], (List.append_nil acc).symm⟩
  | cons d t ih =>
    obtain ⟨suf, hsuf⟩ := ih (addDefault acc d)
    by_cases hc : acc.any (fun item => containsL d item) = true
    · have h1 : addDefault acc d = acc := by simp [addDefault, hc]
      refine ⟨suf, ?_⟩
      show t.foldl addDefault (addDefault acc d) = acc ++ suf
      rw [hsuf, h1]
    · have h1 : addDefault acc d = acc ++ [defaultLine d] := by simp [addDefault, hc]
      refine ⟨[defaultLine d] ++ suf, ?_⟩
      show t.foldl addDefault (addDefault acc d) = acc ++ ([defaultLine d] ++ suf)
      rw [hsuf, h1, List.append_assoc]

/-- C8 amended: for every input with no "Error" whose lines include
exactly 3 containing "supplier details" (lowercased), each of which the
scan routes to the "Supplier Details" section (equivalently: none also
contains an earlier header keyword such as "phone number" or "email"),
multiple-suppliers mode is active, the "Multiple Suppliers Detected on
this Website" marker is the very first output line (head of the output
list and prefix of the joined output), and exactly 3 indexed supplier
blocks are built, header lines indexed 1 to 3 in order of appearance
(`BlocksOK 0`), all of which are emitted inside the output list. -/
theorem format_three_suppliers_amended (x : String)
    (herr : hasError x = false)
    (hcount : supplierDetailCount (splitNL x.data) = 3)
    (hkey : ∀ ln ∈ splitNL x.data,
        containsL (strL "supplier details") (lowerL ln) = true →
        findSec (stripL ln) =
          some (strL "Supplier Details", strL "Supplier Details")) :
    (formatLines x.data).head? =
      some (strL "Multiple Suppliers Detected on this Website") ∧
    isPrefixL (strL "Multiple Suppliers Detected on this Website")
      (format_deep_scrape_output x).data = true ∧
    (scanSt true (splitNL x.data)).blocks.length = 3 ∧
    BlocksOK 0 (scanSt true (splitNL x.data)).blocks ∧
    (∃ pre post, formatLines x.data =
        pre ++ (scanSt true (splitNL x.data)).blocks.flatten ++ post) := by
  obtain ⟨hhead, -, hlen, hblocks⟩ := scanSt_true_inv (splitNL x.data)
  have hpt : ∀ ln ∈ splitNL x.data,
      isSDLine ln = containsL (strL "supplier details") (lowerL ln) := by
    intro ln hln
    by_cases hc : containsL (strL "supplier details") (lowerL ln) = true
    · have hf := hkey ln hln hc
      rw [hc]
      simp [isSDLine, hf]
    · have hc' : containsL (strL "supplier details") (lowerL ln) = false := by
        cases hcc : containsL (strL "supplier details") (lowerL ln) with
        | false => rfl
        | true => exact absurd hcc hc
      have hs : isSDLine ln = false := by
        cases hs : isSDLine ln with
        | false => rfl
        | true => exact absurd (sdCount_of_isSDLine ln hs) hc
      rw [hs, hc']
  have hcnt : (splitNL x.data).countP isSDLine = 3 := by
    rw [countP_congr_mem _ _
      (fun ln => containsL (strL "supplier details") (lowerL ln)) hpt,
      List.countP_eq_length_filter]
    exact hcount
  have hlen3 : (scanSt true (splitNL x.data)).blocks.length = 3 := by
    rw [hlen, scanSt_true_idx, hcnt]
  have hm : decide (1 < supplierDetailCount (splitNL x.data)) = true := by
    rw [hcount]
    decide
  have hpre : preDefaultLines x.data =
      (scanSt true (splitNL x.data)).out ++
        (scanSt true (splitNL x.data)).blocks.flatten := by
    simp only [preDefaultLines]
    rw [hm]
    simp
  obtain ⟨suf, hsuf⟩ := foldl_addDefault_append displayNames (preDefaultLines x.data)
  have hfl : formatLines x.data =
      ((scanSt true (splitNL x.data)).out ++
        (scanSt true (splitNL x.data)).blocks.flatten) ++ suf := by
    show displayNames.foldl addDefault (preDefaultLines x.data) = _
    rw [hsuf, hpre]
  have hheadFL : (formatLines x.data).head? =
      some (strL "Multiple Suppliers Detected on this Website") := by
    rw [hfl]
    exact head?_append_left _ _ _ (head?_append_left _ _ _ hhead)
  refine ⟨hheadFL, ?_, hlen3, hblocks,
    ⟨(scanSt true (splitNL x.data)).out, suf, by rw [hfl, List.append_assoc]⟩⟩
  have hne : (formatLines x.data).isEmpty = false := by
    cases hq : formatLines x.data with
    | nil =>
      rw [hq] at hheadFL
      simp at hheadFL
    | cons a t => simp [hq]
  have hfmt : format_deep_scrape_output x = ⟨formatCore x.data⟩ := by
    simp [format_deep_scrape_output, herr]
  rw [hfmt]
  show isPrefixL _ (formatCore x.data) = true
  unfold formatCore
  rw [hne]
  simp only [Bool.false_eq_true, if_false]
  obtain ⟨rest, hrest⟩ : ∃ rest, formatLines x.data =
      strL "Multiple Suppliers Detected on this Website" :: rest := by
    cases hq : formatLines x.data with
    | nil =>
      rw [hq] at hheadFL
      simp at hheadFL
    | cons a t =>
      rw [hq] at hheadFL
      simp only [List.head?_cons, Option.some.injEq] at hheadFL
      exact ⟨t, by rw [hheadFL]⟩
  rw [hrest]
  cases rest with
  | nil => exact isPrefixL_refl _
  | cons b t =>
    show isPrefixL _
      (strL "Multiple Suppliers Detected on this Website" ++ '\n' :: joinNL (b :: t)) = true
    exact isPrefixL_append _ _ _ (isPrefixL_refl _)

/-- Witness for C8 amended at the canonical three-supplier input. -/
theorem format_three_suppliers_amended_witness :
    (formatLines (strL "Supplier Details: A\nSupplier Details: B\nSupplier Details: C")).head? =
      some (strL "Multiple Suppliers Detected on this Website") :=
  (format_three_suppliers_amended
    "Supplier Details: A\nSupplier Details: B\nSupplier Details: C"
    (by decide) (by decide) (by decide)).1

/- ----------------------------------------------------------------------
Claim theorems: the ranking normalizer.
---------------------------------------------------------------------- -/

/-- Every cleaned criterion score lies in [0,5]. -/
theorem cleanedScore_bounds (scores : List (String × Json)) (c : String) :
    0 ≤ cleanedScore scores c ∧ cleanedScore scores c ≤ 5 := by
  cases h : (List.lookup c scores).bind jnumVal with
  | none =>
    simp only [cleanedScore, h]
    norm_num
  | some q =>
    simp only [cleanedScore, h, clampQ]
    constructor
    · exact le_min (by norm_num) (le_max_left 0 q)
    · exact min_le_left 5 (max 0 q)

/-- The weighted total lies in [0,5]: the weights are nonnegative and sum
to 1, and every cleaned score lies in [0,5]. -/
theorem weightedTotal_bounds (scores : List (String × Json)) :
    0 ≤ weightedTotal scores ∧ weightedTotal scores ≤ 5 := by
  obtain ⟨a0, a5⟩ := cleanedScore_bounds scores "product_quality"
  obtain ⟨b0, b5⟩ := cleanedScore_bounds scores "certifications"
  obtain ⟨c0, c5⟩ := cleanedScore_bounds scores "customer_reviews"
  obtain ⟨d0, d5⟩ := cleanedScore_bounds scores "price_competitiveness"
  obtain ⟨e0, e5⟩ := cleanedScore_bounds scores "manufacturing_capabilities"
  obtain ⟨f0, f5⟩ := cleanedScore_bounds scores "reliability"
  obtain ⟨g0, g5⟩ := cleanedScore_bounds scores "innovation"
  simp only [weightedTotal, criteria_weights, List.map_cons, List.map_nil,
    List.sum_cons, List.sum_nil]
  constructor <;> nlinarith

/-- Round-half-to-even returns the floor or the floor plus one, the latter
only when the fractional part is at least one half. -/
theorem rhe_cases (x : ℚ) :
    rhe x = ⌊x⌋ ∨ (rhe x = ⌊x⌋ + 1 ∧ 1/2 ≤ x - ⌊x⌋) := by
  unfold rhe
  split_ifs with h1 h2 h3
  · exact Or.inl rfl
  · exact Or.inr ⟨rfl, le_of_lt h2⟩
  · exact Or.inl rfl
  · exact Or.inr ⟨rfl, le_of_not_lt h1⟩

/-- Rounding to one decimal maps [0,5] into [0,5]. -/
theorem round1_bounds (x : ℚ) (h0 : 0 ≤ x) (h5 : x ≤ 5) :
    0 ≤ round1 x ∧ round1 x ≤ 5 := by
  have hy0 : (0:ℚ) ≤ x * 10 := by linarith
  have hy5 : x * 10 ≤ 50 := by linarith
  have hf0 : (0:ℤ) ≤ ⌊x * 10⌋ := Int.floor_nonneg.mpr hy0
  have hrhe0 : (0:ℤ) ≤ rhe (x * 10) := by
    rcases rhe_cases (x * 10) with h | ⟨h, _⟩ <;> omega
  have hrhe50 : rhe (x * 10) ≤ 50 := by
    rcases rhe_cases (x * 10) with h | ⟨h, hr⟩
    · have hq : (⌊x * 10⌋ : ℚ) ≤ 50 := le_trans (Int.floor_le _) hy5
      have : ⌊x * 10⌋ ≤ 50 := by exact_mod_cast hq
      omega
    · have hfl : (⌊x * 10⌋ : ℚ) ≤ x * 10 - 1/2 := by linarith
      have hq : (⌊x * 10⌋ : ℚ) ≤ 99/2 := by linarith
      have hlt : (⌊x * 10⌋ : ℚ) < 50 := lt_of_le_of_lt hq (by norm_num)
      have : ⌊x * 10⌋ < 50 := by exact_mod_cast hlt
      omega
  constructor
  · unfold round1
    apply div_nonneg _ (by norm_num)
    exact_mod_cast hrhe0
  · unfold round1
    have hc : ((rhe (x * 10) : ℤ) : ℚ) ≤ 50 := by exact_mod_cast hrhe50
    linarith

/-- C1: for every supplier entry of the parsed ranking reply whose value is
a mapping, the cleaned score map stored by `rank_suppliers` (via
`cleanRanking`) contains all 7 fixed criteria with their cleaned (clamped
or defaulted) scores, every stored value — criteria and total alike — lies
in [0,5], no key beyond the 7 criteria and "total" survives, and the
stored "total" is `round1` of the weighted sum of the cleaned scores. -/
theorem rank_scores_clean_invariants
    (entries : List (String × Json)) (s : String) (scores : List (String × Json))
    (hmem : (s, Json.obj scores) ∈ entries) :
    ((s, cleanEntry scores) ∈ cleanRanking entries) ∧
    (∀ c ∈ criteriaNames, List.lookup c (cleanEntry scores) = some (cleanedScore scores c)) ∧
    (∀ p ∈ cleanEntry scores, (0:ℚ) ≤ p.2 ∧ p.2 ≤ 5) ∧
    (∀ p ∈ cleanEntry scores, p.1 ∈ criteriaNames ∨ p.1 = "total") ∧
    (List.lookup "total" (cleanEntry scores) = some (round1 (weightedTotal scores))) ∧
    (0 ≤ round1 (weightedTotal scores) ∧ round1 (weightedTotal scores) ≤ 5) := by
  obtain ⟨w0, w5⟩ := weightedTotal_bounds scores
  refine ⟨?_, ?_, ?_, ?_, ?_, round1_bounds _ w0 w5⟩
  · exact List.mem_filterMap.mpr ⟨(s, Json.obj scores), hmem, rfl⟩
  · intro c hc
    simp only [criteriaNames, criteria_weights, List.map_cons, List.map_nil,
      List.mem_cons, List.not_mem_nil, or_false] at hc
    rcases hc with rfl | rfl | rfl | rfl | rfl | rfl | rfl <;> rfl
  · intro p hp
    rcases List.mem_append.mp hp with hp' | hp'
    · obtain ⟨q, _, rfl⟩ := List.mem_map.mp hp'
      exact cleanedScore_bounds scores q.1
    · rcases List.mem_singleton.mp hp' with rfl
      exact round1_bounds _ w0 w5
  · intro p hp
    rcases List.mem_append.mp hp with hp' | hp'
    · obtain ⟨q, hq, rfl⟩ := List.mem_map.mp hp'
      exact Or.inl (List.mem_map.mpr ⟨q, hq, rfl⟩)
    · rcases List.mem_singleton.mp hp' with rfl
      exact Or.inr rfl
  · rfl

/-- Witness for C1: the cleaned map of a supplier with an empty score
mapping is stored in the ranking result. -/
theorem rank_scores_clean_invariants_witness :
    ("A", cleanEntry []) ∈ cleanRanking [("A", Json.obj [])] :=
  (rank_scores_clean_invariants [("A", Json.obj [])] "A" []
    (List.mem_singleton.mpr rfl)).1

/-- Round-half-to-even of an integer is that integer. -/
theorem rhe_intCast (n : ℤ) : rhe ((n : ℤ) : ℚ) = n := by
  unfold rhe
  rw [Int.floor_intCast]
  norm_num

/-- `round1` of a rational that becomes an integer when multiplied by 10. -/
theorem round1_of_mul10_int (x : ℚ) (n : ℤ) (h : x * 10 = (n : ℚ)) :
    round1 x = (n : ℚ) / 10 := by
  unfold round1
  rw [h, rhe_intCast]

/-- C3: every one of the 7 criteria that is absent from (or non-numeric
in) a supplier's mapping is stored as exactly 3 before weighting; and for
the reply `[("SupplierA", obj [("product_quality", 5)])]` the stored
scores are 5 for product quality, 3 for the other six criteria, and the
total is 3.5. -/
theorem rank_neutral_default :
    (∀ (scores : List (String × Json)) (c : String),
        (List.lookup c scores).bind jnumVal = none → cleanedScore scores c = 3) ∧
    cleanRanking [("SupplierA", Json.obj [("product_quality", Json.num 5)])] =
      [("SupplierA",
        [("product_quality", 5), ("certifications", 3), ("customer_reviews", 3),
         ("price_competitiveness", 3), ("manufacturing_capabilities", 3),
         ("reliability", 3), ("innovation", 3), ("total", 3.5)])] := by
  constructor
  · intro scores c h
    simp [cleanedScore, h]
  · have hpq : cleanedScore [("product_quality", Json.num 5)] "product_quality" = 5 := by
      simp [cleanedScore, List.lookup, jnumVal, clampQ]
    have hone : ∀ c : String, c ≠ "product_quality" →
        cleanedScore [("product_quality", Json.num 5)] c = 3 := by
      intro c hc
      have hb : (c == "product_quality") = false := beq_eq_false_iff_ne.mpr hc
      simp [cleanedScore, List.lookup, hb]
    have hwt : weightedTotal [("product_quality", Json.num 5)] = 7/2 := by
      simp only [weightedTotal, criteria_weights, List.map_cons, List.map_nil,
        List.sum_cons, List.sum_nil]
      rw [hpq, hone "certifications" (by decide), hone "customer_reviews" (by decide),
        hone "price_competitiveness" (by decide),
        hone "manufacturing_capabilities" (by decide),
        hone "reliability" (by decide), hone "innovation" (by decide)]
      norm_num
    have hr : round1 (weightedTotal [("product_quality", Json.num 5)]) = 3.5 := by
      rw [round1_of_mul10_int _ 35 (by rw [hwt]; norm_num)]
      norm_num
    simp only [cleanRanking, cleanEntry, List.filterMap_cons, List.filterMap_nil,
      criteria_weights, List.map_cons, List.map_nil, hr]
    rw [hpq, hone "certifications" (by decide), hone "customer_reviews" (by decide),
      hone "price_competitiveness" (by decide),
      hone "manufacturing_capabilities" (by decide),
      hone "reliability" (by decide), hone "innovation" (by decide)]
    rfl

/-- Witness for C3: a criterion absent from an empty score mapping is
stored as 3. -/
theorem rank_neutral_default_witness :
    cleanedScore [] "certifications" = 3 :=
  rank_neutral_default.1 [] "certifications" rfl

/-- C7: when no brace span can be extracted from the LLM reply, or when the
extracted substring fails JSON parsing, `rank_suppliers` reports the
corresponding parse error and returns no ranking — never a partially
populated one. -/
theorem rank_parse_failure_absent
    (parse : String → Option (List (String × Json))) (response : String) :
    (extractJsonSpan response = none →
      rank_suppliers parse response =
        (none, ["No valid JSON found in ranking response."])) ∧
    (∀ sub, extractJsonSpan response = some sub → parse sub = none →
      rank_suppliers parse response =
        (none, ["Unable to parse JSON response from OpenAI for ranking."])) := by
  constructor
  · intro h
    simp [rank_suppliers, h]
  · intro sub h hp
    simp [rank_suppliers, h, hp]

/-- Witness for C7: a reply with no brace at all yields the no-JSON error
and no ranking. -/
theorem rank_parse_failure_absent_witness :
    rank_suppliers (fun _ => none) "no json here" =
      (none, ["No valid JSON found in ranking response."]) :=
  (rank_parse_failure_absent (fun _ => none) "no json here").1 (by decide)

/- ----------------------------------------------------------------------
Claim theorems: retriever and extraction cache.
---------------------------------------------------------------------- -/

/-- Unfolding step of the retry loop on a 403/429 response. -/
theorem ewtAux_step_block (get : ℕ → HttpResp) (i n : ℕ) (code : ℕ) (b : String)
    (hg : get i = HttpResp.response code b) (hc : code = 403 ∨ code = 429) :
    ewtAux get i (n + 1) =
      ((ewtAux get (i + 1) n).1, (ewtAux get (i + 1) n).2.1 + 1,
        5 :: (ewtAux get (i + 1) n).2.2) := by
  have h200 : ¬ code = 200 := by rcases hc with rfl | rfl <;> decide
  simp [ewtAux, hg, h200, hc]

/-- Unfolding step of the retry loop on a hard (non-200, non-403/429)
response: fail immediately after a single attempt. -/
theorem ewtAux_step_hard (get : ℕ → HttpResp) (i n : ℕ) (code : ℕ) (b : String)
    (hg : get i = HttpResp.response code b)
    (h200 : code ≠ 200) (h403 : code ≠ 403) (h429 : code ≠ 429) :
    ewtAux get i (n + 1) = (none, 1, []) := by
  have hc : ¬ (code = 403 ∨ code = 429) := by
    rintro (rfl | rfl) <;> simp at h403 h429
  simp [ewtAux, hg, h200, hc]

/-- C6: with `retries = 3` and three consecutive 429 responses, the
retriever makes exactly 3 GET attempts, sleeps 5 seconds after each, and
returns no text; any other non-200, non-403/429 status fails immediately
after a single attempt with no sleep. -/
theorem extract_webpage_text_retries :
    (∀ (get : ℕ → HttpResp) (b0 b1 b2 : String),
      get 0 = HttpResp.response 429 b0 → get 1 = HttpResp.response 429 b1 →
      get 2 = HttpResp.response 429 b2 →
      extract_webpage_text get 3 = (none, 3, [5, 5, 5])) ∧
    (∀ (get : ℕ → HttpResp) (code : ℕ) (body : String) (retries : ℕ),
      0 < retries → get 0 = HttpResp.response code body →
      code ≠ 200 → code ≠ 403 → code ≠ 429 →
      extract_webpage_text get retries = (none, 1, [])) := by
  constructor
  · intro get b0 b1 b2 h0 h1 h2
    show ewtAux get 0 3 = (none, 3, [5, 5, 5])
    rw [show (3 : ℕ) = 2 + 1 from rfl,
      ewtAux_step_block get 0 2 429 b0 h0 (Or.inr rfl),
      show (2 : ℕ) = 1 + 1 from rfl,
      ewtAux_step_block get 1 1 429 b1 h1 (Or.inr rfl),
      show (1 : ℕ) = 0 + 1 from rfl,
      ewtAux_step_block get 2 0 429 b2 h2 (Or.inr rfl)]
    rfl
  · intro get code body retries hr h0 h200 h403 h429
    obtain ⟨n, rfl⟩ : ∃ n, retries = n + 1 :=
      ⟨retries - 1, (Nat.succ_pred_eq_of_pos hr).symm⟩
    show ewtAux get 0 (n + 1) = (none, 1, [])
    exact ewtAux_step_hard get 0 n code body h0 h200 h403 h429

/-- Witness for C6: a collaborator answering 429 on every attempt. -/
theorem extract_webpage_text_retries_witness :
    extract_webpage_text (fun _ => HttpResp.response 429 "") 3 = (none, 3, [5, 5, 5]) :=
  extract_webpage_text_retries.1 (fun _ => HttpResp.response 429 "") "" "" "" rfl rfl rfl

/-- Looking up a key at the most-recently-used position succeeds. -/
theorem cacheLookup_head (u : String) (v : String × Option String)
    (rest : ExtractionCache) : cacheLookup ((u, v) :: rest) u = some v := by
  simp [cacheLookup, List.lookup]

/-- C5: for every URL whose first deep extraction succeeded (the fetch
returned text), a second `deep_scrape_website` call with the same URL
string returns the identical (formatted text, summary) pair without
running the fetch-plus-LLM computation again; and in general a cache hit
never invokes the computation. -/
theorem deep_scrape_cache_hit (fetch : String → Option String)
    (chat : String → String → String) (c : ExtractionCache) (u : String) :
    (∀ txt, fetch u = some txt →
      ((deep_scrape_website fetch chat
          ((deep_scrape_website fetch chat c u).2.1) u).1 =
         (deep_scrape_website fetch chat c u).1 ∧
       (deep_scrape_website fetch chat
          ((deep_scrape_website fetch chat c u).2.1) u).2.2 = false)) ∧
    (∀ v, cacheLookup c u = some v →
      deep_scrape_website fetch chat c u = (v, lruTouch c u v, false)) := by
  constructor
  · intro txt _
    cases h : cacheLookup c u with
    | some v =>
      have h1 : deep_scrape_website fetch chat c u = (v, lruTouch c u v, false) := by
        simp [deep_scrape_website, h]
      rw [h1]
      have h2 : cacheLookup (lruTouch c u v) u = some v := cacheLookup_head u v _
      simp [deep_scrape_website, h2]
    | none =>
      have h1 : deep_scrape_website fetch chat c u =
          (deep_scrape_compute fetch chat u,
           lruInsert c u (deep_scrape_compute fetch chat u), true) := by
        simp [deep_scrape_website, h]
      rw [h1]
      have h2 : cacheLookup (lruInsert c u (deep_scrape_compute fetch chat u)) u =
          some (deep_scrape_compute fetch chat u) := cacheLookup_head u _ _
      simp [deep_scrape_website, h2]
  · intro v h
    simp [deep_scrape_website, h]

/-- Witness for C5: on a successful fetch, the immediate second call is a
cache hit and does not run the computation. -/
theorem deep_scrape_cache_hit_witness :
    (deep_scrape_website (fun _ => some "hello") (fun _ _ => "reply")
       ((deep_scrape_website (fun _ => some "hello") (fun _ _ => "reply") [] "http://w").2.1)
       "http://w").2.2 = false :=
  ((deep_scrape_cache_hit (fun _ => some "hello") (fun _ _ => "reply") [] "http://w").1
    "hello" rfl).2

/-- C9 counterexample: a `deep_scrape_website` call whose fetch returns
nothing does create a cache entry — the failure sentinel is memoized — and
a second call for the same URL is a cache hit that does not re-attempt the
fetch. -/
theorem deep_scrape_failure_cached_cex :
    cacheLookup ((deep_scrape_website (fun _ => none) (fun _ _ => "")
        [] "http://a").2.1) "http://a" =
      some ("No data extracted. The website might be blocking requests.", none) ∧
    (deep_scrape_website (fun _ => none) (fun _ _ => "")
      ((deep_scrape_website (fun _ => none) (fun _ _ => "") [] "http://a").2.1)
      "http://a").2.2 = false := by
  constructor <;> rfl

/-- C9 amended: the cache records the result of every `deep_scrape_website`
call, failures included: when the fetch returns nothing (and the URL is
uncached), the failure sentinel pair is stored under the URL and a later
call for the same URL replays it as a cache hit without re-running the
fetch. -/
theorem deep_scrape_failure_cached_amended (fetch : String → Option String)
    (chat : String → String → String) (c : ExtractionCache) (u : String)
    (hf : fetch u = none) (hc : cacheLookup c u = none) :
    (deep_scrape_website fetch chat c u).1 =
      ("No data extracted. The website might be blocking requests.", none) ∧
    cacheLookup (deep_scrape_website fetch chat c u).2.1 u =
      some ("No data extracted. The website might be blocking requests.", none) ∧
    (deep_scrape_website fetch chat
      (deep_scrape_website fetch chat c u).2.1 u).2.2 = false := by
  have hv : deep_scrape_compute fetch chat u =
      ("No data extracted. The website might be blocking requests.", none) := by
    simp [deep_scrape_compute, hf]
  have h1 : deep_scrape_website fetch chat c u =
      (deep_scrape_compute fetch chat u,
       lruInsert c u (deep_scrape_compute fetch chat u), true) := by
    simp [deep_scrape_website, hc]
  have h2 : cacheLookup (lruInsert c u (deep_scrape_compute fetch chat u)) u =
      some (deep_scrape_compute fetch chat u) := cacheLookup_head u _ _
  refine ⟨by rw [h1, hv], by rw [h1]; exact hv ▸ h2, ?_⟩
  rw [h1]
  simp [deep_scrape_website, h2]

/-- Witness for C9 amended: concrete failing fetch on an empty cache. -/
theorem deep_scrape_failure_cached_amended_witness :
    (deep_scrape_website (fun _ => none) (fun _ _ => "c") [] "http://b").1 =
      ("No data extracted. The website might be blocking requests.", none) :=
  (deep_scrape_failure_cached_amended (fun _ => none) (fun _ _ => "c")
    [] "http://b" rfl rfl).1

end SupplierScraper
